import Mathlib

/-!
Shallow embedding of src/resume_parser.py.

Python strings are modelled as lists of characters.  The regex fallback
extractors, the JSON-handling of parse_gemini_response (including a model
of the standard json.loads on the integer/string/array/object fragment of
JSON), the exception behaviour of initialize_apis, parse_resume,
analyze_resume and parse_gemini_response, and the temp-file lifecycle of
main are all translated directly from the source.
-/

namespace ResumeParser

/-- Python strings are modelled as lists of characters. -/
abbrev PyStr := List Char

/-- Shorthand for turning a Lean string literal into the model type. -/
def toL (s : String) : PyStr := s.toList

/-- The single-quote character, written by code point to keep source plain. -/
def squote : Char := Char.ofNat 39

/-- The backtick character, written by code point to keep source plain. -/
def btick : Char := Char.ofNat 96

/-- Whitespace recognised by Python str.strip with no argument and by the
regex class backslash-s on ASCII text: space, tab, newline, carriage
return, vertical tab (11) and form feed (12). -/
def isSpaceChar (c : Char) : Bool :=
  c == ' ' || c == '\t' || c == '\n' || c == '\r' ||
  c == Char.ofNat 11 || c == Char.ofNat 12

/-- Python str.strip: drop leading whitespace (left half). -/
def pyStripLeft (s : PyStr) : PyStr := s.dropWhile isSpaceChar

/-- Python str.strip: drop trailing whitespace (right half). -/
def pyStripRight (s : PyStr) : PyStr := (s.reverse.dropWhile isSpaceChar).reverse

/-- Python str.strip with no argument. -/
def pyStrip (s : PyStr) : PyStr := pyStripRight (pyStripLeft s)

/-- The character set of the Python call strip with space, double quote and
single quote, used by extract_value and extract_list on each captured item. -/
def quoteSpace : List Char := [' ', '"', squote]

/-- Python str.strip with an explicit character set: drop those characters
from both ends. -/
def stripChars (cs : List Char) (s : PyStr) : PyStr :=
  ((s.dropWhile (fun c => cs.contains c)).reverse.dropWhile
    (fun c => cs.contains c)).reverse

/-- The strip of space, double quote and single quote from both ends,
as applied by extract_value and extract_list. -/
def stripQuoteSpace (s : PyStr) : PyStr := stripChars quoteSpace s

/-- Characters allowed by the capture group of the extract_value regex:
anything except comma, newline and closing brace. -/
def notExcl (c : Char) : Bool := !(c == ',' || c == '\n' || c == '}')

/-- The literal part of both extractor regexes: a double quote, the key,
a double quote and a colon. -/
def litPat (key : PyStr) : PyStr := '"' :: (key ++ ['"', ':'])

/-- Backtracking of the regex tail after the literal: the whitespace star
tries the longest run first (index j counts consumed whitespace) and the
capture group then takes the longest run of characters outside the
excluded set, needing at least one. -/
def captureTry (rest : PyStr) : Nat → Option PyStr
  | 0 =>
    match rest with
    | [] => none
    | c :: _ => if notExcl c then some (rest.takeWhile notExcl) else none
  | j + 1 =>
    match rest.drop (j + 1) with
    | [] => captureTry rest j
    | c :: _ =>
      if notExcl c then some ((rest.drop (j + 1)).takeWhile notExcl)
      else captureTry rest j

/-- The regex tail of extract_value after the literal key part. -/
def regexCapture (rest : PyStr) : Option PyStr :=
  captureTry rest (rest.takeWhile isSpaceChar).length

/-- re.search for the extract_value pattern: scan left to right for a
position where the literal key part matches and the tail then succeeds. -/
def reSearchValue (key : PyStr) : PyStr → Option PyStr
  | [] => none
  | c :: tail =>
    if (litPat key).isPrefixOf (c :: tail) then
      match regexCapture ((c :: tail).drop (litPat key).length) with
      | some cap => some cap
      | none => reSearchValue key tail
    else reSearchValue key tail

/-- The regex tail of extract_list after the literal key part: optional
whitespace, an opening bracket, a nonempty capture of characters other
than a closing bracket, then a closing bracket. -/
def listCapture (rest : PyStr) : Option PyStr :=
  let w := (rest.takeWhile isSpaceChar).length
  match rest.drop w with
  | '[' :: afterBracket =>
    let cap := afterBracket.takeWhile (fun c => !(c == ']'))
    if cap.isEmpty then none
    else if (afterBracket.drop cap.length).head? == some ']' then some cap
    else none
  | _ => none

/-- re.search for the extract_list pattern, scanning left to right. -/
def reSearchList (key : PyStr) : PyStr → Option PyStr
  | [] => none
  | c :: tail =>
    if (litPat key).isPrefixOf (c :: tail) then
      match listCapture ((c :: tail).drop (litPat key).length) with
      | some cap => some cap
      | none => reSearchList key tail
    else reSearchList key tail

/-- Decimal value of a digit string. -/
def digitsToNat (ds : PyStr) : Nat := ds.foldl (fun a c => 10 * a + (c.toNat - 48)) 0

/-- Model of the Python int constructor on a string: surrounding whitespace
is allowed, then an optional sign and a nonempty run of decimal digits.
Digit-group underscores and non-ASCII digits are outside the model. -/
def pyIntOfStr? (s : PyStr) : Option Int :=
  match pyStrip s with
  | [] => none
  | c :: rest =>
    if c = '-' then
      if rest ≠ [] ∧ rest.all Char.isDigit then some (-(digitsToNat rest : Int)) else none
    else if c = '+' then
      if rest ≠ [] ∧ rest.all Char.isDigit then some ((digitsToNat rest : Int)) else none
    else if (c :: rest).all Char.isDigit then some ((digitsToNat (c :: rest) : Int))
    else none

/-- extract_value with type_func equal to int: on a regex match, convert
the capture stripped of spaces and quotes with int, returning int() = 0
when the conversion raises; with no match return int() = 0. -/
def extract_value_int (text key : PyStr) : Int :=
  match reSearchValue key text with
  | some cap => (pyIntOfStr? (stripQuoteSpace cap)).getD 0
  | none => 0

/-- extract_value with type_func equal to str: str is the identity on
strings and never raises, so a match returns the stripped capture and no
match returns str() which is the empty string. -/
def extract_value_str (text key : PyStr) : PyStr :=
  match reSearchValue key text with
  | some cap => stripQuoteSpace cap
  | none => []

/-- Python str.split on a comma: every comma splits, empty pieces kept. -/
def splitComma : PyStr → List PyStr
  | [] => [[]]
  | c :: rest =>
    if c = ',' then [] :: splitComma rest
    else
      match splitComma rest with
      | [] => [[c]]
      | h :: t => (c :: h) :: t

/-- extract_list: on a regex match, split the capture on commas, keep the
items whose whitespace-strip is nonempty, and strip spaces and quotes from
each kept item; with no match return the empty list. -/
def extract_list (text key : PyStr) : List PyStr :=
  match reSearchList key text with
  | some cap =>
    ((splitComma cap).filter (fun item => !(pyStrip item).isEmpty)).map stripQuoteSpace
  | none => []

/-- Python objects as produced by json.loads, also used for the values the
repository passes around: None is the JSON null.  JSON numbers are
modelled on their integer fragment; floating point is outside the model. -/
inductive Json where
  | null
  | bool (b : Bool)
  | num (n : Int)
  | str (s : PyStr)
  | arr (elems : List Json)
  | obj (members : List (PyStr × Json))

/-- Whitespace skipped by the JSON grammar between tokens. -/
def isJsonWs (c : Char) : Bool :=
  c == ' ' || c == '\t' || c == '\n' || c == '\r'

/-- Skip JSON whitespace. -/
def skipWs (s : PyStr) : PyStr := s.dropWhile isJsonWs

/-- JSON string escapes handled by the model; the four-hex-digit unicode
escape is outside the model and makes the parse fail. -/
def escChar (c : Char) : Option Char :=
  if c = '"' then some '"'
  else if c = '\\' then some '\\'
  else if c = '/' then some '/'
  else if c = 'n' then some '\n'
  else if c = 't' then some '\t'
  else if c = 'r' then some '\r'
  else if c = 'b' then some (Char.ofNat 8)
  else if c = 'f' then some (Char.ofNat 12)
  else none

/-- Parse the body of a JSON string after the opening quote, returning the
decoded characters and the remaining input.  Control characters below 32
are rejected as in strict json.loads. -/
def parseStringBody : Nat → PyStr → Option (PyStr × PyStr)
  | 0, _ => none
  | _ + 1, [] => none
  | fuel + 1, c :: rest =>
    if c = '"' then some ([], rest)
    else if c = '\\' then
      match rest with
      | [] => none
      | e :: rest2 =>
        match escChar e with
        | some d =>
          match parseStringBody fuel rest2 with
          | some (s, r) => some (d :: s, r)
          | none => none
        | none => none
    else if c.toNat < 32 then none
    else
      match parseStringBody fuel rest with
      | some (s, r) => some (c :: s, r)
      | none => none

/-- Parse a JSON number on its integer fragment: an optional minus sign
and digits with no leading zero; a following dot or exponent marks a
floating-point literal, which is outside the model. -/
def parseNumber (s : PyStr) : Option (Int × PyStr) :=
  let signed := match s with
                | '-' :: t => (true, t)
                | _ => (false, s)
  let ds := signed.2.takeWhile Char.isDigit
  let rest := signed.2.drop ds.length
  if ds.isEmpty then none
  else if ds.length > 1 && ds.head? == some '0' then none
  else
    match rest with
    | c :: _ =>
      if c = '.' || c = 'e' || c = 'E' then none
      else some ((if signed.1 then -(digitsToNat ds : Int) else (digitsToNat ds : Int)), rest)
    | [] => some ((if signed.1 then -(digitsToNat ds : Int) else (digitsToNat ds : Int)), [])

mutual

/-- Parse one JSON value; fuel strictly decreases on every recursive call
and is chosen large enough at the top entry point. -/
def parseVal : Nat → PyStr → Option (Json × PyStr)
  | 0, _ => none
  | fuel + 1, s =>
    match s with
    | [] => none
    | c :: rest =>
      if c = '"' then
        match parseStringBody (fuel + 1) rest with
        | some (str, r) => some (.str str, r)
        | none => none
      else if c = '{' then
        match skipWs rest with
        | '}' :: r2 => some (.obj [], r2)
        | r1 =>
          match parseMembers fuel r1 with
          | some (ms, r2) => some (.obj ms, r2)
          | none => none
      else if c = '[' then
        match skipWs rest with
        | ']' :: r2 => some (.arr [], r2)
        | r1 =>
          match parseElems fuel r1 with
          | some (es, r2) => some (.arr es, r2)
          | none => none
      else if c = 't' then
        if ['r', 'u', 'e'].isPrefixOf rest then some (.bool true, rest.drop 3) else none
      else if c = 'f' then
        if ['a', 'l', 's', 'e'].isPrefixOf rest then some (.bool false, rest.drop 4) else none
      else if c = 'n' then
        if ['u', 'l', 'l'].isPrefixOf rest then some (.null, rest.drop 3) else none
      else if c = '-' || c.isDigit then
        match parseNumber s with
        | some (n, r) => some (.num n, r)
        | none => none
      else none

/-- Parse the elements of a nonempty JSON array up to and including the
closing bracket. -/
def parseElems : Nat → PyStr → Option (List Json × PyStr)
  | 0, _ => none
  | fuel + 1, s =>
    match parseVal fuel s with
    | none => none
    | some (v, r) =>
      match skipWs r with
      | ',' :: r2 =>
        match parseElems fuel (skipWs r2) with
        | some (vs, r3) => some (v :: vs, r3)
        | none => none
      | ']' :: r2 => some ([v], r2)
      | _ => none

/-- Parse the members of a nonempty JSON object up to and including the
closing brace. -/
def parseMembers : Nat → PyStr → Option (List (PyStr × Json) × PyStr)
  | 0, _ => none
  | fuel + 1, s =>
    match s with
    | '"' :: rest =>
      match parseStringBody (fuel + 1) rest with
      | none => none
      | some (k, r1) =>
        match skipWs r1 with
        | ':' :: r2 =>
          match parseVal fuel (skipWs r2) with
          | none => none
          | some (v, r3) =>
            match skipWs r3 with
            | ',' :: r4 =>
              match parseMembers fuel (skipWs r4) with
              | some (ms, r5) => some ((k, v) :: ms, r5)
              | none => none
            | '}' :: r4 => some ([(k, v)], r4)
            | _ => none
        | _ => none
    | _ => none

end

/-- Model of json.loads: parse one value with surrounding whitespace and
require the whole input consumed, otherwise the decode fails. -/
def jsonLoads (s : PyStr) : Option Json :=
  match parseVal (2 * s.length + 8) (skipWs s) with
  | some (j, r) => if (skipWs r).isEmpty then some j else none
  | none => none

/-- Python slicing t from index a to index -b: drop a from the front and
keep everything before the last b positions. -/
def pySliceToNegEnd (a b : Nat) (s : PyStr) : PyStr :=
  let d := s.drop a
  d.take (d.length - b)

/-- The seven-character markdown fence opener with a json language tag. -/
def fenceJson : PyStr := [btick, btick, btick, 'j', 's', 'o', 'n']

/-- The bare three-character markdown fence. -/
def fenceBare : PyStr := [btick, btick, btick]

/-- The cleaning step of parse_gemini_response: strip the response, then
cut seven characters from the front and three from the back when it starts
with a json fence, or three and three when it starts with a bare fence,
stripping again after the cut. -/
def cleanResponse (t : PyStr) : PyStr :=
  let c := pyStrip t
  if fenceJson.isPrefixOf c then pyStrip (pySliceToNegEnd 7 3 c)
  else if fenceBare.isPrefixOf c then pyStrip (pySliceToNegEnd 3 3 c)
  else c

/-- Outcome of a Python call: a normal value or a raised exception carrying
a message or exception-class tag. -/
inductive PyResult (α : Type) where
  | ok (val : α)
  | exc (msg : PyStr)

/-- Tag of the json.JSONDecodeError exception class. -/
def jsonDecodeErr : PyStr := toL "JSONDecodeError"

/-- json.loads as a raising call: a failed parse raises JSONDecodeError. -/
def jsonLoadsR (s : PyStr) : PyResult Json :=
  match jsonLoads s with
  | some j => .ok j
  | none => .exc jsonDecodeErr

/-- The dictionary built by the regex fallback branch of
parse_gemini_response, in source order, from the original response text. -/
def fallbackDict (t : PyStr) : Json :=
  .obj [ (toL "match_score", .num (extract_value_int t (toL "match_score"))),
         (toL "matching_skills", .arr ((extract_list t (toL "matching_skills")).map .str)),
         (toL "missing_skills", .arr ((extract_list t (toL "missing_skills")).map .str)),
         (toL "experience", .num (extract_value_int t (toL "experience"))),
         (toL "suggestions", .arr ((extract_list t (toL "suggestions")).map .str)),
         (toL "summary", .str (extract_value_str t (toL "summary"))) ]

/-- parse_gemini_response: clean the text and parse it strictly; the
except clause catches exactly JSONDecodeError and answers with the regex
fallback dictionary, any other exception would propagate. -/
def parse_gemini_response (t : PyStr) : PyResult Json :=
  match jsonLoadsR (cleanResponse t) with
  | .ok j => .ok j
  | .exc m => if m = jsonDecodeErr then .ok (fallbackDict t) else .exc m

/-- initialize_apis: each of the two initializations is wrapped in its own
try block; a failure is reported and leaves None for that handle. -/
def initialize_apis (llama gem : PyResult Unit) : PyResult (Option Unit × Option Unit) :=
  let parser := match llama with
                | .ok u => some u
                | .exc _ => none
  let model := match gem with
               | .ok u => some u
               | .exc _ => none
  .ok (parser, model)

/-- parse_resume: when a parser is present, try load_data and take the
text of the first document (an empty document list raises IndexError,
caught like any exception); on any failure or with no parser, fall back to
pdfminer extract_text, and on its failure return the empty string. -/
def parse_resume (parser : Option Unit) (loadData : PyResult (List PyStr))
    (extractText : PyResult PyStr) : PyResult PyStr :=
  let firstTry : PyResult (Option PyStr) :=
    match parser with
    | some _ =>
      match loadData with
      | .ok docs =>
        match docs with
        | [] => .exc (toL "IndexError")
        | d :: _ => .ok (some d)
      | .exc m => .exc m
    | none => .ok none
  match firstTry with
  | .ok (some t) => .ok t
  | _ =>
    match extractText with
    | .ok t => .ok t
    | .exc _ => .ok []

/-- analyze_resume: the model call and the response parsing run inside one
try block; any exception is reported and None is returned. -/
def analyze_resume (gen : PyResult PyStr) : PyResult Json :=
  match gen with
  | .ok txt =>
    match parse_gemini_response txt with
    | .ok j => .ok j
    | .exc _ => .ok Json.null
  | .exc _ => .ok Json.null

/-- Python truthiness of the values a json.loads result can take. -/
def truthy : Json → Bool
  | .null => false
  | .bool b => b
  | .num n => n != 0
  | .str s => !s.isEmpty
  | .arr xs => !xs.isEmpty
  | .obj kvs => !kvs.isEmpty

/-- Python dict lookup on the member list of a parsed object: with
duplicate keys the later member wins, as in a dict built by json.loads. -/
def dictGet (kvs : List (PyStr × Json)) (k : PyStr) : Option Json :=
  (kvs.reverse.find? (fun p => p.1 = k)).map (fun p => p.2)

/-- Python dict.get with a default. -/
def dictGetD (kvs : List (PyStr × Json)) (k : PyStr) (d : Json) : Json :=
  (dictGet kvs k).getD d

/-- Whether a for loop over the value runs without raising TypeError:
strings, lists and dicts iterate, the other json.loads results do not. -/
def iterable : Json → Bool
  | .str _ => true
  | .arr _ => true
  | .obj _ => true
  | _ => false

/-- The results display of main: attribute access analysis.get raises
AttributeError unless the analysis is a dict; each of the three skill and
suggestion loops raises TypeError when the stored value is not iterable;
the summary branch only reads by key after a truthiness guard on get, so
it cannot raise. -/
def displayResult : Json → PyResult Unit
  | .obj kvs =>
    if iterable (dictGetD kvs (toL "matching_skills") (.arr [])) then
      if iterable (dictGetD kvs (toL "missing_skills") (.arr [])) then
        if iterable (dictGetD kvs (toL "suggestions") (.arr [])) then .ok ()
        else .exc (toL "TypeError")
      else .exc (toL "TypeError")
    else .exc (toL "TypeError")
  | _ => .exc (toL "AttributeError")

/-- The external outcomes one run of main can observe. -/
structure MainEnv where
  llama : PyResult Unit
  gem : PyResult Unit
  uploadedName : Option PyStr
  jd : PyStr
  loadData : PyResult (List PyStr)
  extractText : PyResult PyStr
  gen : PyResult PyStr

/-- How a run of main ends: stopped by st.stop, a normal return, or an
uncaught exception. -/
inductive MainExit where
  | stopped
  | returned
  | raised (msg : PyStr)

/-- Result of a run of main: how it ended and which temporary files are
still on disk afterwards. -/
structure MainOut where
  exit : MainExit
  tempFiles : List PyStr

/-- main: initialize the APIs, stop without a model, and with an upload
and a job description write the temporary file, parse, analyze, display,
and remove the temporary file on the parse-failure return and after the
display; an exception raised by the display skips the removal. -/
def main (env : MainEnv) : MainOut :=
  match initialize_apis env.llama env.gem with
  | .exc m => ⟨.raised m, []⟩
  | .ok (parser, model) =>
    if model.isNone then ⟨.stopped, []⟩
    else
      match env.uploadedName with
      | none => ⟨.returned, []⟩
      | some name =>
        if env.jd.isEmpty then ⟨.returned, []⟩
        else
          let temp := toL "temp_" ++ name
          match parse_resume parser env.loadData env.extractText with
          | .exc m => ⟨.raised m, [temp]⟩
          | .ok resumeText =>
            if resumeText.isEmpty then ⟨.returned, []⟩
            else
              match analyze_resume env.gen with
              | .exc m => ⟨.raised m, [temp]⟩
              | .ok analysis =>
                if truthy analysis then
                  match displayResult analysis with
                  | .ok _ => ⟨.returned, []⟩
                  | .exc m => ⟨.raised m, [temp]⟩
                else ⟨.returned, []⟩

/-- Whether the pattern occurs as a contiguous subsequence of the text;
this is what it means for a key to be present for the extractor regexes. -/
def containsSeq (pat : PyStr) : PyStr → Bool
  | [] => pat.isPrefixOf []
  | c :: tail => pat.isPrefixOf (c :: tail) || containsSeq pat tail

/-- The well-formedness property asserted of every analysis result by the
data-model claim: a dict whose match_score is an integer between 0 and
100, whose experience is an integer, whose three skill and suggestion
fields are lists of strings, and whose summary is a string. -/
def resultWellFormed (j : Json) : Prop :=
  ∃ kvs, j = .obj kvs ∧
    (∃ n : Int, dictGet kvs (toL "match_score") = some (.num n) ∧ 0 ≤ n ∧ n ≤ 100) ∧
    (∃ n : Int, dictGet kvs (toL "experience") = some (.num n)) ∧
    (∃ l : List PyStr, dictGet kvs (toL "matching_skills") = some (.arr (l.map Json.str))) ∧
    (∃ l : List PyStr, dictGet kvs (toL "missing_skills") = some (.arr (l.map Json.str))) ∧
    (∃ l : List PyStr, dictGet kvs (toL "suggestions") = some (.arr (l.map Json.str))) ∧
    (∃ s, dictGet kvs (toL "summary") = some (.str s))

/-- An environment for main in which every external call succeeds and the
model answers with the valid JSON text 42: a number, not an object. -/
def leakEnv : MainEnv :=
  ⟨.ok (), .ok (), some (toL "r.pdf"), toL "jd",
    .ok [toL "resume text"], .ok (toL "resume text"), .ok (toL "42")⟩

/-- A near-JSON text whose list for the key s holds a tab-led item and an
item consisting of a single quote character. -/
def c9text : PyStr := toL "\"s\": [\ta, " ++ [squote, ']']

/-- A response consisting of a json-tagged markdown fence around a body. -/
def wrapJson (s : PyStr) : PyStr := fenceJson ++ '\n' :: (s ++ '\n' :: fenceBare)

/-- A response consisting of a bare markdown fence around a body. -/
def wrapBare (s : PyStr) : PyStr := fenceBare ++ '\n' :: (s ++ '\n' :: fenceBare)

/-- A string literal as it appears inside a near-JSON list: the body in
double quotes. -/
def quoteWrap (v : PyStr) : PyStr := '"' :: (v ++ ['"'])

/-- The source text of a flat list of string literals separated by comma
and space. -/
def renderItems : List PyStr → PyStr
  | [] => []
  | [v] => quoteWrap v
  | v :: w :: rest => quoteWrap v ++ (',' :: ' ' :: renderItems (w :: rest))

/-- A character is plain when it cannot interfere with the list regex,
the comma split or the quote strip: not a comma, not a closing bracket,
not whitespace, not a quote and not a space. -/
def plainChar (c : Char) : Bool :=
  !(c == ',') && !(c == ']') && !(isSpaceChar c) && !(quoteSpace.contains c)

/-- A plain nonempty list item. -/
def plainItem (v : PyStr) : Bool := !v.isEmpty && v.all plainChar

/-! Toolkit lemmas about the list model of Python strings. -/

theorem lem_isPrefixOf_append (l r : List Char) : l.isPrefixOf (l ++ r) = true := by
  induction l with
  | nil => simp [List.isPrefixOf]
  | cons c cs ih => simp [List.isPrefixOf, ih]

theorem lem_dropWhile_of_all_neg (p : Char → Bool) (l : List Char)
    (h : ∀ c ∈ l, p c = false) : l.dropWhile p = l := by
  cases l with
  | nil => rfl
  | cons c cs => simp [List.dropWhile, h c (by simp)]

theorem lem_dropWhile_append_pos (p : Char → Bool) (a b : List Char)
    (h : ∀ c ∈ a, p c = true) : (a ++ b).dropWhile p = b.dropWhile p := by
  induction a with
  | nil => rfl
  | cons c cs ih =>
    simp only [List.cons_append, List.dropWhile, h c (by simp)]
    exact ih (fun x hx => h x (by simp [hx]))

theorem lem_takeWhile_append_pos (p : Char → Bool) (a b : List Char)
    (h : ∀ c ∈ a, p c = true) : (a ++ b).takeWhile p = a ++ b.takeWhile p := by
  induction a with
  | nil => rfl
  | cons c cs ih =>
    simp only [List.cons_append, List.takeWhile, h c (by simp)]
    simp [ih (fun x hx => h x (by simp [hx]))]

theorem lem_takeWhile_of_all_pos (p : Char → Bool) (l : List Char)
    (h : ∀ c ∈ l, p c = true) : l.takeWhile p = l := by
  induction l with
  | nil => rfl
  | cons c cs ih =>
    simp only [List.takeWhile, h c (by simp)]
    simp [ih (fun x hx => h x (by simp [hx]))]

theorem lem_takeWhile_cons_neg (p : Char → Bool) (c : Char) (l : List Char)
    (h : p c = false) : (c :: l).takeWhile p = [] := by
  simp [List.takeWhile, h]

theorem lem_dropWhile_cons_neg (p : Char → Bool) (c : Char) (l : List Char)
    (h : p c = false) : (c :: l).dropWhile p = c :: l := by
  simp [List.dropWhile, h]

/-! Lemmas about the regex scanners. -/

theorem lem_reSearchValue_none (key : PyStr) (text : PyStr)
    (h : containsSeq (litPat key) text = false) : reSearchValue key text = none := by
  induction text with
  | nil => rfl
  | cons c tail ih =>
    simp only [containsSeq, Bool.or_eq_false_iff] at h
    simp [reSearchValue, h.1, ih h.2]

theorem lem_reSearchList_none (key : PyStr) (text : PyStr)
    (h : containsSeq (litPat key) text = false) : reSearchList key text = none := by
  induction text with
  | nil => rfl
  | cons c tail ih =>
    simp only [containsSeq, Bool.or_eq_false_iff] at h
    simp [reSearchList, h.1, ih h.2]

/-- parse_gemini_response never lets an exception escape. -/
theorem lem_pgr_ok (t : PyStr) : ∃ j, parse_gemini_response t = .ok j := by
  cases h : jsonLoads (cleanResponse t) with
  | none => exact ⟨fallbackDict t, by simp [parse_gemini_response, jsonLoadsR, h]⟩
  | some j => exact ⟨j, by simp [parse_gemini_response, jsonLoadsR, h]⟩

/-! Claim theorems. -/

/-- C1: when the given key is absent from the text, so the key-matching
regex finds no match, the fallback extractors return the type defaults:
extract_value with int returns 0, extract_value with str returns the
empty string, and extract_list returns the empty list. -/
theorem claim_C1_absent_key_defaults (text key : PyStr)
    (h : containsSeq (litPat key) text = false) :
    extract_value_int text key = 0 ∧ extract_value_str text key = [] ∧
      extract_list text key = [] := by
  refine ⟨?_, ?_, ?_⟩
  · simp [extract_value_int, lem_reSearchValue_none key text h]
  · simp [extract_value_str, lem_reSearchValue_none key text h]
  · simp [extract_list, lem_reSearchList_none key text h]

/-- Witness for C1 at a concrete text with no occurrence of the key. -/
theorem claim_C1_absent_key_defaults_witness :
    containsSeq (litPat (toL "match_score")) (toL "plain resume text") = false ∧
      (extract_value_int (toL "plain resume text") (toL "match_score") = 0 ∧
        extract_value_str (toL "plain resume text") (toL "match_score") = [] ∧
        extract_list (toL "plain resume text") (toL "match_score") = []) :=
  ⟨rfl, claim_C1_absent_key_defaults (toL "plain resume text") (toL "match_score") rfl⟩

/-- C3: when strict JSON parsing of the cleaned response fails with a
decode error, parse_gemini_response returns the regex fallback dictionary
instead of propagating the error, and when the cleaned response is valid
JSON it returns the strictly parsed value. -/
theorem claim_C3_json_fallback (t : PyStr) :
    (jsonLoads (cleanResponse t) = none →
        parse_gemini_response t = .ok (fallbackDict t)) ∧
      (∀ j, jsonLoads (cleanResponse t) = some j → parse_gemini_response t = .ok j) := by
  constructor
  · intro h
    simp [parse_gemini_response, jsonLoadsR, h]
  · intro j h
    simp [parse_gemini_response, jsonLoadsR, h]

/-- Witness for C3 on a malformed and on a well-formed response. -/
theorem claim_C3_json_fallback_witness :
    (jsonLoads (cleanResponse (toL "not json")) = none ∧
        parse_gemini_response (toL "not json") = .ok (fallbackDict (toL "not json"))) ∧
      (jsonLoads (cleanResponse (toL "3")) = some (.num 3) ∧
        parse_gemini_response (toL "3") = .ok (.num 3)) :=
  ⟨⟨rfl, (claim_C3_json_fallback (toL "not json")).1 rfl⟩,
    ⟨rfl, (claim_C3_json_fallback (toL "3")).2 (.num 3) rfl⟩⟩

/-- C5: each of initialize_apis, parse_resume, analyze_resume and
parse_gemini_response is total and never lets an exception escape,
whatever the outcomes of the external calls they wrap. -/
theorem claim_C5_no_exception_escapes (llama gem : PyResult Unit) (parser : Option Unit)
    (loadData : PyResult (List PyStr)) (extractText : PyResult PyStr)
    (gen : PyResult PyStr) (t : PyStr) :
    (∃ v, initialize_apis llama gem = .ok v) ∧
      (∃ v, parse_resume parser loadData extractText = .ok v) ∧
      (∃ v, analyze_resume gen = .ok v) ∧
      (∃ v, parse_gemini_response t = .ok v) := by
  refine ⟨⟨_, rfl⟩, ?_, ?_, lem_pgr_ok t⟩
  · cases parser with
    | none =>
      cases extractText with
      | ok txt => exact ⟨txt, rfl⟩
      | exc m => exact ⟨[], rfl⟩
    | some u =>
      cases loadData with
      | ok docs =>
        cases docs with
        | nil =>
          cases extractText with
          | ok txt => exact ⟨txt, rfl⟩
          | exc m => exact ⟨[], rfl⟩
        | cons d ds => exact ⟨d, rfl⟩
      | exc m =>
        cases extractText with
        | ok txt => exact ⟨txt, rfl⟩
        | exc m2 => exact ⟨[], rfl⟩
  · cases gen with
    | ok txt =>
      obtain ⟨j, hj⟩ := lem_pgr_ok txt
      exact ⟨j, by simp [analyze_resume, hj]⟩
    | exc m => exact ⟨Json.null, rfl⟩

/-- C6: whenever the fallback path runs, the returned dictionary has
exactly the six keys match_score, matching_skills, missing_skills,
experience, suggestions and summary, in source order, with the two
integer fields from integer extraction, the three list fields from list
extraction, and summary from string extraction. -/
theorem claim_C6_fallback_keys (t : PyStr)
    (h : jsonLoads (cleanResponse t) = none) :
    parse_gemini_response t = .ok (Json.obj
      [ (toL "match_score", .num (extract_value_int t (toL "match_score"))),
        (toL "matching_skills", .arr ((extract_list t (toL "matching_skills")).map .str)),
        (toL "missing_skills", .arr ((extract_list t (toL "missing_skills")).map .str)),
        (toL "experience", .num (extract_value_int t (toL "experience"))),
        (toL "suggestions", .arr ((extract_list t (toL "suggestions")).map .str)),
        (toL "summary", .str (extract_value_str t (toL "summary"))) ]) := by
  simp [parse_gemini_response, jsonLoadsR, h, fallbackDict]

/-- Witness for C6 at a concrete malformed response. -/
theorem claim_C6_fallback_keys_witness :
    jsonLoads (cleanResponse (toL "score is 9")) = none ∧
      parse_gemini_response (toL "score is 9") = .ok (Json.obj
        [ (toL "match_score", .num 0), (toL "matching_skills", .arr []),
          (toL "missing_skills", .arr []), (toL "experience", .num 0),
          (toL "suggestions", .arr []), (toL "summary", .str []) ]) :=
  ⟨rfl, (claim_C6_fallback_keys (toL "score is 9") rfl).trans (by rfl)⟩

/-- C4 counterexample: on the strict path parse_gemini_response returns
whatever JSON the response holds; a response whose match_score is 200 and
which lacks the other five fields is returned as is, so the asserted
well-formedness fails. -/
theorem claim_C4_counterexample :
    parse_gemini_response (toL "\x7b\"match_score\": 200\x7d") =
        .ok (.obj [(toL "match_score", .num 200)]) ∧
      ¬ resultWellFormed (.obj [(toL "match_score", .num 200)]) := by
  refine ⟨rfl, ?_⟩
  rintro ⟨kvs, hkvs, ⟨n, hn, h0, h100⟩, -⟩
  injection hkvs with hk
  subst hk
  have h2 : (some (Json.num 200) : Option Json) = some (.num n) := hn
  injection h2 with h3
  injection h3 with h4
  omega

/-- C4 amended: every analysis result produced by the regex-fallback path
of parse_gemini_response has an integer match_score, an integer
experience, lists of strings for the skill and suggestion fields and a
string summary; the 0 to 100 range and the shape of strict-path results
are not guaranteed. -/
theorem claim_C4_fallback_types (t : PyStr)
    (h : jsonLoads (cleanResponse t) = none) :
    ∃ kvs, parse_gemini_response t = .ok (.obj kvs) ∧
      (∃ n : Int, dictGet kvs (toL "match_score") = some (.num n)) ∧
      (∃ n : Int, dictGet kvs (toL "experience") = some (.num n)) ∧
      (∃ l : List PyStr, dictGet kvs (toL "matching_skills") = some (.arr (l.map Json.str))) ∧
      (∃ l : List PyStr, dictGet kvs (toL "missing_skills") = some (.arr (l.map Json.str))) ∧
      (∃ l : List PyStr, dictGet kvs (toL "suggestions") = some (.arr (l.map Json.str))) ∧
      (∃ s, dictGet kvs (toL "summary") = some (.str s)) := by
  refine ⟨[ (toL "match_score", .num (extract_value_int t (toL "match_score"))),
      (toL "matching_skills", .arr ((extract_list t (toL "matching_skills")).map .str)),
      (toL "missing_skills", .arr ((extract_list t (toL "missing_skills")).map .str)),
      (toL "experience", .num (extract_value_int t (toL "experience"))),
      (toL "suggestions", .arr ((extract_list t (toL "suggestions")).map .str)),
      (toL "summary", .str (extract_value_str t (toL "summary"))) ],
    ?_, ?_, ?_, ?_, ?_, ?_, ?_⟩
  · simp [parse_gemini_response, jsonLoadsR, h, fallbackDict]
  · exact ⟨extract_value_int t (toL "match_score"), rfl⟩
  · exact ⟨extract_value_int t (toL "experience"), rfl⟩
  · exact ⟨extract_list t (toL "matching_skills"), rfl⟩
  · exact ⟨extract_list t (toL "missing_skills"), rfl⟩
  · exact ⟨extract_list t (toL "suggestions"), rfl⟩
  · exact ⟨extract_value_str t (toL "summary"), rfl⟩

/-- Witness for the amended C4 at a concrete malformed response. -/
theorem claim_C4_fallback_types_witness :
    jsonLoads (cleanResponse (toL "score 3")) = none ∧
      (∃ kvs, parse_gemini_response (toL "score 3") = .ok (.obj kvs) ∧
        (∃ n : Int, dictGet kvs (toL "match_score") = some (.num n)) ∧
        (∃ n : Int, dictGet kvs (toL "experience") = some (.num n)) ∧
        (∃ l : List PyStr, dictGet kvs (toL "matching_skills") = some (.arr (l.map Json.str))) ∧
        (∃ l : List PyStr, dictGet kvs (toL "missing_skills") = some (.arr (l.map Json.str))) ∧
        (∃ l : List PyStr, dictGet kvs (toL "suggestions") = some (.arr (l.map Json.str))) ∧
        (∃ s, dictGet kvs (toL "summary") = some (.str s))) :=
  ⟨rfl, claim_C4_fallback_types (toL "score 3") rfl⟩

/-- C7: the code leaks the temporary file.  In an environment where every
external call succeeds and the model answers with the valid JSON text 42,
the display raises AttributeError on the non-dict analysis before the
removal call, so main raises and the temporary file persists. -/
theorem claim_C7_temp_file_leak :
    main leakEnv = ⟨.raised (toL "AttributeError"), [toL "temp_r.pdf"]⟩ := rfl

/-- C9 counterexample: a list whose items are tab-a and a lone single
quote; the tab survives the strip of spaces and quotes, the quote-only
item passes the whitespace filter and strips to the empty string, so an
empty string is returned. -/
theorem claim_C9_counterexample :
    extract_list c9text (toL "s") = [['\t', 'a'], []] ∧
      [] ∈ extract_list c9text (toL "s") := by
  refine ⟨rfl, ?_⟩
  rw [show extract_list c9text (toL "s") = [['\t', 'a'], []] from rfl]
  simp

/-- C9 amended: on a regex match, extract_list returns the comma-separated
items that are not empty or whitespace-only before stripping, each with
surrounding space, double-quote and single-quote characters stripped;
other whitespace such as tabs is kept, and a kept item made only of
quotes and spaces yields the empty string. -/
theorem claim_C9_amended (text key cap : PyStr) (h : reSearchList key text = some cap) :
    extract_list text key =
        ((splitComma cap).filter (fun item => !(pyStrip item).isEmpty)).map stripQuoteSpace ∧
      ∀ e ∈ extract_list text key, ∃ item ∈ splitComma cap,
        (pyStrip item).isEmpty = false ∧ e = stripQuoteSpace item := by
  have h1 : extract_list text key =
      ((splitComma cap).filter (fun item => !(pyStrip item).isEmpty)).map stripQuoteSpace := by
    simp [extract_list, h]
  refine ⟨h1, ?_⟩
  rw [h1]
  intro e he
  simp only [List.mem_map, List.mem_filter] at he
  obtain ⟨item, ⟨hmem, hok⟩, rfl⟩ := he
  exact ⟨item, hmem, by simpa using hok, rfl⟩

/-- Witness for the amended C9 at a concrete two-element list. -/
theorem claim_C9_amended_witness :
    reSearchList (toL "s") (toL "\"s\": [\"a\", \"b\"]") = some (toL "\"a\", \"b\"") ∧
      extract_list (toL "\"s\": [\"a\", \"b\"]") (toL "s") = [toL "a", toL "b"] :=
  ⟨rfl, ((claim_C9_amended (toL "\"s\": [\"a\", \"b\"]") (toL "s")
    (toL "\"a\", \"b\"") rfl).1).trans (by rfl)⟩

/-- C10 counterexample: when the model call succeeds with the response
null, the strict parse yields JSON null, response handling completes
without an exception, and analyze_resume still returns None. -/
theorem claim_C10_counterexample :
    analyze_resume (.ok (toL "null")) = .ok Json.null ∧
      parse_gemini_response (toL "null") = .ok Json.null := ⟨rfl, rfl⟩

/-- C10 amended: analyze_resume returns None when the model call raises,
returns the parse_gemini_response value when the call succeeds, and its
None results are exactly the raising runs together with the runs whose
strictly parsed response is JSON null. -/
theorem claim_C10_none_characterization (gen : PyResult PyStr) :
    ((∃ m, gen = .exc m) → analyze_resume gen = .ok Json.null) ∧
      (∀ t, gen = .ok t → analyze_resume gen = parse_gemini_response t) ∧
      (analyze_resume gen = .ok Json.null ↔
        ((∃ m, gen = .exc m) ∨
          (∃ t, gen = .ok t ∧ parse_gemini_response t = .ok Json.null))) := by
  cases gen with
  | exc m =>
    refine ⟨fun _ => rfl, fun t h => (PyResult.noConfusion h), ?_⟩
    exact iff_of_true rfl (Or.inl ⟨m, rfl⟩)
  | ok t =>
    obtain ⟨j, hj⟩ := lem_pgr_ok t
    have ha : analyze_resume (.ok t) = .ok j := by simp [analyze_resume, hj]
    refine ⟨fun ⟨m, hm⟩ => (PyResult.noConfusion hm), ?_, ?_⟩
    · intro t' h
      injection h with h2
      subst h2
      exact ha.trans hj.symm
    · rw [ha]
      constructor
      · intro h
        injection h with h2
        subst h2
        exact Or.inr ⟨t, rfl, hj⟩
      · rintro (⟨m, hm⟩ | ⟨t', ht', hp⟩)
        · exact PyResult.noConfusion hm
        · injection ht' with h2
          subst h2
          rw [hj] at hp
          injection hp with h3
          rw [h3]

/-- Witness for the amended C10 on a raising call and on a successful
call with a numeric response. -/
theorem claim_C10_none_characterization_witness :
    analyze_resume (.exc (toL "boom")) = .ok Json.null ∧
      analyze_resume (.ok (toL "7")) = .ok (.num 7) :=
  ⟨(claim_C10_none_characterization (.exc (toL "boom"))).1 ⟨toL "boom", rfl⟩,
    ((claim_C10_none_characterization (.ok (toL "7"))).2.1 (toL "7") rfl).trans (by rfl)⟩

theorem lem_dropWhile_append_of_ne_nil (p : Char → Bool) (a b : List Char)
    (h : a.dropWhile p ≠ []) : (a ++ b).dropWhile p = a.dropWhile p ++ b := by
  induction a with
  | nil => simp at h
  | cons c cs ih =>
    cases hc : p c with
    | true =>
      rw [List.dropWhile_cons_of_pos hc] at h
      rw [List.cons_append, List.dropWhile_cons_of_pos hc, List.dropWhile_cons_of_pos hc]
      exact ih h
    | false =>
      have hc' : ¬ p c = true := by simp [hc]
      rw [List.cons_append, List.dropWhile_cons_of_neg hc', List.dropWhile_cons_of_neg hc',
        List.cons_append]

theorem lem_pyStripLeft_cons_space (c : Char) (l : PyStr) (h : isSpaceChar c = true) :
    pyStripLeft (c :: l) = pyStripLeft l := by
  simp [pyStripLeft, List.dropWhile_cons, h]

theorem lem_pyStripLeft_cons_nonspace (c : Char) (l : PyStr) (h : isSpaceChar c = false) :
    pyStripLeft (c :: l) = c :: l := by
  simp [pyStripLeft, List.dropWhile_cons, h]

theorem lem_pyStripRight_snoc_space (l : PyStr) (c : Char) (h : isSpaceChar c = true) :
    pyStripRight (l ++ [c]) = pyStripRight l := by
  simp [pyStripRight, List.reverse_append, List.dropWhile_cons, h]

theorem lem_pyStripRight_snoc_nonspace (l : PyStr) (c : Char) (h : isSpaceChar c = false) :
    pyStripRight (l ++ [c]) = l ++ [c] := by
  simp [pyStripRight, List.reverse_append, List.dropWhile_cons, h]

theorem lem_pyStrip_wrapNl (s : PyStr) : pyStrip ('\n' :: (s ++ ['\n'])) = pyStrip s := by
  rw [pyStrip, lem_pyStripLeft_cons_space '\n' _ (by decide)]
  cases hsl : pyStripLeft s with
  | nil =>
    have hall : ∀ c ∈ s, isSpaceChar c = true := List.dropWhile_eq_nil_iff.mp hsl
    have h2 : pyStripLeft (s ++ ['\n']) = [] := by
      rw [pyStripLeft, lem_dropWhile_append_pos _ _ _ hall]
      decide
    rw [h2, pyStrip, hsl]
  | cons d ds =>
    have hne : pyStripLeft s ≠ [] := by rw [hsl]; simp
    have h2 : pyStripLeft (s ++ ['\n']) = pyStripLeft s ++ ['\n'] :=
      lem_dropWhile_append_of_ne_nil _ _ _ hne
    rw [h2, lem_pyStripRight_snoc_space _ '\n' (by decide), pyStrip]

theorem lem_pyStripLeft_fence (tag r : PyStr) (hne : tag ≠ [])
    (hhead : isSpaceChar (tag.headD ' ') = false) :
    pyStripLeft (tag ++ r) = tag ++ r := by
  obtain ⟨c, tag', rfl⟩ := List.exists_cons_of_ne_nil hne
  rw [List.cons_append]
  exact lem_pyStripLeft_cons_nonspace _ _ (by simpa using hhead)

theorem lem_wrapJson_strip (s : PyStr) : pyStrip (wrapJson s) = wrapJson s := by
  have h1 : pyStripLeft (wrapJson s) = wrapJson s := by
    rw [wrapJson]
    exact lem_pyStripLeft_fence _ _ (by decide) (by decide)
  have hshape : wrapJson s = (fenceJson ++ '\n' :: (s ++ ['\n', btick, btick])) ++ [btick] := by
    simp [wrapJson, fenceBare]
  rw [pyStrip, h1, hshape]
  exact lem_pyStripRight_snoc_nonspace _ _ (by decide)

theorem lem_wrapBare_strip (s : PyStr) : pyStrip (wrapBare s) = wrapBare s := by
  have h1 : pyStripLeft (wrapBare s) = wrapBare s := by
    rw [wrapBare]
    exact lem_pyStripLeft_fence _ _ (by decide) (by decide)
  have hshape : wrapBare s = (fenceBare ++ '\n' :: (s ++ ['\n', btick, btick])) ++ [btick] := by
    simp [wrapBare, fenceBare]
  rw [pyStrip, h1, hshape]
  exact lem_pyStripRight_snoc_nonspace _ _ (by decide)

theorem lem_slice_wrapJson (s : PyStr) :
    pySliceToNegEnd 7 3 (wrapJson s) = '\n' :: (s ++ ['\n']) := by
  simp only [pySliceToNegEnd]
  have hd : (wrapJson s).drop 7 = '\n' :: (s ++ '\n' :: fenceBare) := by
    rw [wrapJson, show (7 : Nat) = fenceJson.length from rfl]
    exact List.drop_left _ _
  rw [hd]
  have hshape : '\n' :: (s ++ '\n' :: fenceBare) =
      ('\n' :: (s ++ ['\n'])) ++ [btick, btick, btick] := by
    simp [fenceBare]
  rw [hshape]
  have hlen : (('\n' :: (s ++ ['\n'])) ++ [btick, btick, btick]).length - 3 =
      ('\n' :: (s ++ ['\n'])).length := by
    simp
  rw [hlen]
  exact List.take_left _ _

theorem lem_slice_wrapBare (s : PyStr) :
    pySliceToNegEnd 3 3 (wrapBare s) = '\n' :: (s ++ ['\n']) := by
  simp only [pySliceToNegEnd]
  have hd : (wrapBare s).drop 3 = '\n' :: (s ++ '\n' :: fenceBare) := by
    rw [wrapBare, show (3 : Nat) = fenceBare.length from rfl]
    exact List.drop_left _ _
  rw [hd]
  have hshape : '\n' :: (s ++ '\n' :: fenceBare) =
      ('\n' :: (s ++ ['\n'])) ++ [btick, btick, btick] := by
    simp [fenceBare]
  rw [hshape]
  have hlen : (('\n' :: (s ++ ['\n'])) ++ [btick, btick, btick]).length - 3 =
      ('\n' :: (s ++ ['\n'])).length := by
    simp
  rw [hlen]
  exact List.take_left _ _

theorem lem_clean_wrapJson (s : PyStr) : cleanResponse (wrapJson s) = pyStrip s := by
  simp only [cleanResponse, lem_wrapJson_strip]
  rw [if_pos ?hpre]
  case hpre =>
    rw [wrapJson]
    exact lem_isPrefixOf_append _ _
  rw [lem_slice_wrapJson, lem_pyStrip_wrapNl]

theorem lem_clean_wrapBare (s : PyStr) : cleanResponse (wrapBare s) = pyStrip s := by
  simp only [cleanResponse, lem_wrapBare_strip]
  rw [if_neg ?hj, if_pos ?hb]
  case hj =>
    intro hcontra
    have : fenceJson.isPrefixOf (wrapBare s) = false := rfl
    rw [this] at hcontra
    cases hcontra
  case hb =>
    rw [wrapBare]
    exact lem_isPrefixOf_append _ _
  rw [lem_slice_wrapBare, lem_pyStrip_wrapNl]

/-- C8: a JSON body wrapped in a json-tagged markdown fence or in a bare
markdown fence is unfenced by parse_gemini_response, which then returns
the strict JSON parse of the body. -/
theorem claim_C8_fence_stripping (s : PyStr) (j : Json)
    (h : jsonLoads (pyStrip s) = some j) :
    parse_gemini_response (wrapJson s) = .ok j ∧
      parse_gemini_response (wrapBare s) = .ok j := by
  constructor
  · simp [parse_gemini_response, jsonLoadsR, lem_clean_wrapJson, h]
  · simp [parse_gemini_response, jsonLoadsR, lem_clean_wrapBare, h]

/-- Witness for C8 at a concrete one-member JSON object. -/
theorem claim_C8_fence_stripping_witness :
    jsonLoads (pyStrip (toL "\x7b\"a\": 1\x7d")) = some (.obj [(toL "a", .num 1)]) ∧
      parse_gemini_response (wrapJson (toL "\x7b\"a\": 1\x7d")) =
        .ok (.obj [(toL "a", .num 1)]) ∧
      parse_gemini_response (wrapBare (toL "\x7b\"a\": 1\x7d")) =
        .ok (.obj [(toL "a", .num 1)]) :=
  ⟨rfl, (claim_C8_fence_stripping (toL "\x7b\"a\": 1\x7d") (.obj [(toL "a", .num 1)]) rfl).1,
    (claim_C8_fence_stripping (toL "\x7b\"a\": 1\x7d") (.obj [(toL "a", .num 1)]) rfl).2⟩

theorem lem_reSearchValue_skip (key pre rest : PyStr)
    (h : ∀ i < pre.length, (litPat key).isPrefixOf ((pre ++ rest).drop i) = false) :
    reSearchValue key (pre ++ rest) = reSearchValue key rest := by
  induction pre with
  | nil => rfl
  | cons c pre' ih =>
    have h0 : (litPat key).isPrefixOf (c :: (pre' ++ rest)) = false := by
      have := h 0 (by simp)
      simpa using this
    rw [List.cons_append]
    simp only [reSearchValue, h0, Bool.false_eq_true, if_false]
    exact ih fun i hi => by
      have := h (i + 1) (by simpa using Nat.succ_lt_succ hi)
      simpa using this

theorem lem_reSearchList_skip (key pre rest : PyStr)
    (h : ∀ i < pre.length, (litPat key).isPrefixOf ((pre ++ rest).drop i) = false) :
    reSearchList key (pre ++ rest) = reSearchList key rest := by
  induction pre with
  | nil => rfl
  | cons c pre' ih =>
    have h0 : (litPat key).isPrefixOf (c :: (pre' ++ rest)) = false := by
      have := h 0 (by simp)
      simpa using this
    rw [List.cons_append]
    simp only [reSearchList, h0, Bool.false_eq_true, if_false]
    exact ih fun i hi => by
      have := h (i + 1) (by simpa using Nat.succ_lt_succ hi)
      simpa using this

theorem lem_reSearchValue_hit (key rest cap : PyStr) (h : regexCapture rest = some cap) :
    reSearchValue key (litPat key ++ rest) = some cap := by
  have hpre : (litPat key).isPrefixOf ('"' :: ((key ++ ['"', ':']) ++ rest)) = true :=
    lem_isPrefixOf_append (litPat key) rest
  have hdrop : ('"' :: ((key ++ ['"', ':']) ++ rest)).drop (litPat key).length = rest :=
    List.drop_left (litPat key) rest
  show reSearchValue key ('"' :: ((key ++ ['"', ':']) ++ rest)) = some cap
  simp only [reSearchValue, hpre, if_true, hdrop, h]

theorem lem_reSearchList_hit (key rest cap : PyStr) (h : listCapture rest = some cap) :
    reSearchList key (litPat key ++ rest) = some cap := by
  have hpre : (litPat key).isPrefixOf ('"' :: ((key ++ ['"', ':']) ++ rest)) = true :=
    lem_isPrefixOf_append (litPat key) rest
  have hdrop : ('"' :: ((key ++ ['"', ':']) ++ rest)).drop (litPat key).length = rest :=
    List.drop_left (litPat key) rest
  show reSearchList key ('"' :: ((key ++ ['"', ':']) ++ rest)) = some cap
  simp only [reSearchList, hpre, if_true, hdrop, h]

theorem lem_captureTry_exact (ws : PyStr) (d : Char) (tail2 : PyStr)
    (hd : notExcl d = true) :
    captureTry (ws ++ (d :: tail2)) ws.length = some ((d :: tail2).takeWhile notExcl) := by
  cases hw : ws.length with
  | zero =>
    have hws : ws = [] := List.length_eq_zero.mp hw
    subst hws
    simp [captureTry, hd]
  | succ k =>
    have hdrop : (ws ++ (d :: tail2)).drop (k + 1) = d :: tail2 := by
      rw [← hw]
      exact List.drop_left _ _
    simp only [captureTry, hdrop, hd, if_true]

theorem lem_takeWhile_nil_of_headD (p : Char → Bool) (post : PyStr) (d : Char)
    (h : p (post.headD d) = false) : post.takeWhile p = [] := by
  cases post with
  | nil => rfl
  | cons c p' =>
    simp only [List.headD_cons] at h
    exact lem_takeWhile_cons_neg _ _ _ h

theorem lem_takeWhile_append_exact (p : Char → Bool) (val post : PyStr)
    (hval : ∀ c ∈ val, p c = true) (hpost : p (post.headD '}') = false) :
    (val ++ post).takeWhile p = val := by
  rw [lem_takeWhile_append_pos _ _ _ hval, lem_takeWhile_nil_of_headD _ _ _ hpost,
    List.append_nil]

theorem lem_regexCapture_val (ws val post : PyStr)
    (hws : ∀ c ∈ ws, isSpaceChar c = true)
    (hne : val ≠ [])
    (hhead : isSpaceChar (val.headD ' ') = false)
    (hval : ∀ c ∈ val, notExcl c = true)
    (hpost : notExcl (post.headD '}') = false) :
    regexCapture (ws ++ (val ++ post)) = some val := by
  obtain ⟨d, val', rfl⟩ := List.exists_cons_of_ne_nil hne
  have hw : ((ws ++ ((d :: val') ++ post)).takeWhile isSpaceChar) = ws := by
    rw [lem_takeWhile_append_pos _ _ _ hws, List.cons_append,
      lem_takeWhile_cons_neg _ _ _ (by simpa using hhead), List.append_nil]
  have h1 : captureTry (ws ++ ((d :: val') ++ post)) ws.length =
      some ((d :: (val' ++ post)).takeWhile notExcl) :=
    lem_captureTry_exact ws d (val' ++ post) (hval d (by simp))
  have h2 : (d :: (val' ++ post)).takeWhile notExcl = d :: val' :=
    lem_takeWhile_append_exact notExcl (d :: val') post hval hpost
  rw [regexCapture, hw]
  exact h1.trans (congrArg some h2)

/-! Character-class facts used by the extraction claims. -/

theorem lem_contains_quoteSpace (c : Char) :
    quoteSpace.contains c = true ↔ (c = ' ' ∨ c = '"' ∨ c = squote) := by
  simp [quoteSpace, List.contains, List.elem_iff]

theorem lem_digit_not_space (c : Char) (h : c.isDigit = true) : isSpaceChar c = false := by
  cases hs : isSpaceChar c with
  | false => rfl
  | true =>
    exfalso
    simp only [isSpaceChar, Bool.or_eq_true, beq_iff_eq] at hs
    rcases hs with ((((rfl | rfl) | rfl) | rfl) | rfl) | rfl <;> exact absurd h (by decide)

theorem lem_digit_notExcl (c : Char) (h : c.isDigit = true) : notExcl c = true := by
  cases hx : (c == ',' || c == '\n' || c == '}') with
  | false => simp [notExcl, hx]
  | true =>
    exfalso
    simp only [Bool.or_eq_true, beq_iff_eq] at hx
    rcases hx with (rfl | rfl) | rfl <;> exact absurd h (by decide)

theorem lem_digit_not_quote (c : Char) (h : c.isDigit = true) :
    quoteSpace.contains c = false := by
  cases hq : quoteSpace.contains c with
  | false => rfl
  | true =>
    exfalso
    rcases (lem_contains_quoteSpace c).mp hq with rfl | rfl | rfl <;>
      exact absurd h (by decide)

theorem lem_digit_ne_sign (c : Char) (h : c.isDigit = true) : c ≠ '-' ∧ c ≠ '+' := by
  constructor <;> intro hcontra <;> rw [hcontra] at h <;> exact absurd h (by decide)

/-! Strip lemmas for the extraction claims. -/

theorem lem_stripChars_of_all_not (cs : List Char) (l : PyStr)
    (h : ∀ c ∈ l, cs.contains c = false) : stripChars cs l = l := by
  have h2 : ∀ c ∈ l.reverse, cs.contains c = false := fun c hc => h c (List.mem_reverse.mp hc)
  rw [stripChars, lem_dropWhile_of_all_neg _ _ h, lem_dropWhile_of_all_neg _ _ h2,
    List.reverse_reverse]

theorem lem_pyStrip_of_all_nonspace (l : PyStr) (h : ∀ c ∈ l, isSpaceChar c = false) :
    pyStrip l = l := by
  have h2 : ∀ c ∈ l.reverse, isSpaceChar c = false := fun c hc => h c (List.mem_reverse.mp hc)
  rw [pyStrip, pyStripLeft, lem_dropWhile_of_all_neg _ _ h, pyStripRight,
    lem_dropWhile_of_all_neg _ _ h2, List.reverse_reverse]

theorem lem_stripChars_cons_pos (cs : List Char) (c : Char) (l : PyStr)
    (h : cs.contains c = true) : stripChars cs (c :: l) = stripChars cs l := by
  have h' : c ∈ cs := List.elem_iff.mp h
  simp [stripChars, List.dropWhile_cons, h']

theorem lem_stripChars_snoc_pos (cs : List Char) (c : Char) (l : PyStr)
    (h : cs.contains c = true) : stripChars cs (l ++ [c]) = stripChars cs l := by
  have h' : c ∈ cs := List.elem_iff.mp h
  cases hfront : l.dropWhile (fun x => cs.contains x) with
  | nil =>
    have hall : ∀ x ∈ l, cs.contains x = true := List.dropWhile_eq_nil_iff.mp hfront
    have h1 : (l ++ [c]).dropWhile (fun x => cs.contains x) = [] := by
      rw [lem_dropWhile_append_pos _ _ _ hall]
      simp [List.dropWhile_cons, h']
    rw [stripChars, h1, stripChars, hfront]
  | cons d rest =>
    have hne : l.dropWhile (fun x => cs.contains x) ≠ [] := by rw [hfront]; simp
    rw [stripChars, lem_dropWhile_append_of_ne_nil _ _ _ hne, stripChars, List.reverse_append]
    simp [List.dropWhile_cons, h']

theorem lem_stripChars_no_ends (cs : List Char) (a : Char) (v' : PyStr)
    (hq1 : cs.contains a = false)
    (hq2 : cs.contains ((a :: v').getLastD ' ') = false) :
    stripChars cs (a :: v') = a :: v' := by
  have ha' : a ∉ cs := by simpa using hq1
  rcases List.eq_nil_or_concat (a :: v') with habs | ⟨L, b, hLb⟩
  · simp at habs
  · rw [List.concat_eq_append] at hLb
    have hfront : (a :: v').dropWhile (fun c => cs.contains c) = a :: v' := by
      simp [List.dropWhile_cons, ha']
    have hb' : b ∉ cs := by
      rw [hLb, List.getLastD_concat] at hq2
      simpa using hq2
    rw [stripChars, hfront, hLb, List.reverse_append]
    simp [List.dropWhile_cons, hb', List.reverse_cons]

theorem lem_pyIntOfStr_digits (d : Char) (ds : PyStr)
    (h : (d :: ds).all Char.isDigit = true) :
    pyIntOfStr? (d :: ds) = some ((digitsToNat (d :: ds) : Int)) := by
  have hall := List.all_eq_true.mp h
  have hd : d.isDigit = true := hall d (by simp)
  have hstrip : pyStrip (d :: ds) = d :: ds :=
    lem_pyStrip_of_all_nonspace _ (fun c hc => lem_digit_not_space c (hall c hc))
  obtain ⟨hne1, hne2⟩ := lem_digit_ne_sign d hd
  unfold pyIntOfStr?
  rw [hstrip]
  show (if d = '-' then
      if ds ≠ [] ∧ ds.all Char.isDigit = true then some (-(digitsToNat ds : Int)) else none
    else if d = '+' then
      if ds ≠ [] ∧ ds.all Char.isDigit = true then some ((digitsToNat ds : Int)) else none
    else if (d :: ds).all Char.isDigit = true then some ((digitsToNat (d :: ds) : Int))
    else none) = some ((digitsToNat (d :: ds) : Int))
  rw [if_neg hne1, if_neg hne2, if_pos h]

theorem lem_stripQuoteSpace_quoted (a : Char) (v' : PyStr)
    (hq1 : quoteSpace.contains a = false)
    (hq2 : quoteSpace.contains ((a :: v').getLastD ' ') = false) :
    stripQuoteSpace (quoteWrap (a :: v')) = a :: v' := by
  show stripChars quoteSpace ('"' :: ((a :: v') ++ ['"'])) = a :: v'
  rw [lem_stripChars_cons_pos _ _ _ (by decide), lem_stripChars_snoc_pos _ _ _ (by decide)]
  exact lem_stripChars_no_ends _ _ _ hq1 hq2

theorem lem_plainItem_props (v : PyStr) (h : plainItem v = true) :
    v ≠ [] ∧ ∀ c ∈ v, ((c == ',') = false ∧ (c == ']') = false ∧
      isSpaceChar c = false ∧ quoteSpace.contains c = false) := by
  simp only [plainItem, Bool.and_eq_true, List.all_eq_true, plainChar] at h
  obtain ⟨h1, h2⟩ := h
  constructor
  · cases v with
    | nil => simp at h1
    | cons c cs => simp
  · intro c hc
    have h3 := h2 c hc
    simp only [Bool.and_eq_true, Bool.not_eq_true'] at h3
    refine ⟨h3.1.1.1, h3.1.1.2, h3.1.2, ?_⟩
    have h4 := h3.2
    simpa using h4

theorem lem_stripQuoteSpace_item (w : PyStr) (h : plainItem w = true) :
    stripQuoteSpace (quoteWrap w) = w := by
  obtain ⟨hne, hprops⟩ := lem_plainItem_props w h
  obtain ⟨a, v', rfl⟩ := List.exists_cons_of_ne_nil hne
  apply lem_stripQuoteSpace_quoted
  · exact (hprops a (by simp)).2.2.2
  · rcases List.eq_nil_or_concat (a :: v') with habs | ⟨L, b, hLb⟩
    · simp at habs
    · rw [List.concat_eq_append] at hLb
      rw [hLb, List.getLastD_concat]
      exact (hprops b (by rw [hLb]; simp)).2.2.2

theorem lem_stripQuoteSpace_space_item (w : PyStr) (h : plainItem w = true) :
    stripQuoteSpace (' ' :: quoteWrap w) = w := by
  show stripChars quoteSpace (' ' :: quoteWrap w) = w
  rw [lem_stripChars_cons_pos _ _ _ (by decide)]
  exact lem_stripQuoteSpace_item w h

theorem lem_splitComma_no_comma (l : PyStr) (h : ∀ c ∈ l, (c == ',') = false) :
    splitComma l = [l] := by
  induction l with
  | nil => rfl
  | cons c t ih =>
    have hc : c ≠ ',' := by
      intro heq
      have := h c (by simp)
      rw [heq] at this
      simp at this
    rw [splitComma, if_neg hc, ih (fun x hx => h x (by simp [hx]))]

theorem lem_splitComma_append (a b : PyStr) (h : ∀ c ∈ a, (c == ',') = false) :
    splitComma (a ++ (',' :: b)) = a :: splitComma b := by
  induction a with
  | nil =>
    show splitComma (',' :: b) = [] :: splitComma b
    rw [splitComma, if_pos rfl]
  | cons c a' ih =>
    have hc : c ≠ ',' := by
      intro heq
      have := h c (by simp)
      rw [heq] at this
      simp at this
    rw [List.cons_append, splitComma, if_neg hc, ih (fun x hx => h x (by simp [hx]))]

theorem lem_quoteWrap_no_comma (v : PyStr) (h : plainItem v = true) :
    ∀ c ∈ quoteWrap v, (c == ',') = false := by
  obtain ⟨-, hprops⟩ := lem_plainItem_props v h
  intro c hc
  simp only [quoteWrap, List.mem_cons, List.mem_append] at hc
  rcases hc with rfl | hc | rfl | habs
  · decide
  · exact (hprops c hc).1
  · decide
  · simp at habs

theorem lem_quoteWrap_no_bracket (v : PyStr) (h : plainItem v = true) :
    ∀ c ∈ quoteWrap v, (c == ']') = false := by
  obtain ⟨-, hprops⟩ := lem_plainItem_props v h
  intro c hc
  simp only [quoteWrap, List.mem_cons, List.mem_append] at hc
  rcases hc with rfl | hc | rfl | habs
  · decide
  · exact (hprops c hc).2.1
  · decide
  · simp at habs

theorem lem_renderItems_no_bracket (items : List PyStr)
    (h : ∀ w ∈ items, plainItem w = true) :
    ∀ c ∈ renderItems items, (c == ']') = false := by
  induction items with
  | nil => intro c hc; simp [renderItems] at hc
  | cons v rest ih =>
    cases rest with
    | nil =>
      intro c hc
      exact lem_quoteWrap_no_bracket v (h v (by simp)) c hc
    | cons w rest' =>
      intro c hc
      simp only [renderItems, List.mem_append, List.mem_cons] at hc
      rcases hc with hc | rfl | rfl | hc
      · exact lem_quoteWrap_no_bracket v (h v (by simp)) c hc
      · decide
      · decide
      · exact ih (fun x hx => h x (by simp [hx])) c hc

theorem lem_splitComma_render (v : PyStr) (rest : List PyStr)
    (hall : ∀ w ∈ v :: rest, plainItem w = true) :
    splitComma (renderItems (v :: rest)) =
      quoteWrap v :: rest.map (fun w => ' ' :: quoteWrap w) := by
  induction rest generalizing v with
  | nil =>
    show splitComma (quoteWrap v) = [quoteWrap v]
    exact lem_splitComma_no_comma _ (lem_quoteWrap_no_comma v (hall v (by simp)))
  | cons w rest' ih =>
    show splitComma (quoteWrap v ++ (',' :: (' ' :: renderItems (w :: rest')))) = _
    rw [lem_splitComma_append _ _ (lem_quoteWrap_no_comma v (hall v (by simp)))]
    have hih := ih w (fun x hx => hall x (by simp at hx ⊢; tauto))
    rw [splitComma, if_neg (show ' ' ≠ ',' by decide), hih]
    simp

theorem lem_pyStrip_ne_nil (l : PyStr) (c : Char) (hc : c ∈ l)
    (hcs : isSpaceChar c = false) : (pyStrip l).isEmpty = false := by
  have h1 : c ∈ pyStripLeft l := by
    have hsplit := List.takeWhile_append_dropWhile (p := isSpaceChar) (l := l)
    rcases List.mem_append.mp (by rw [hsplit]; exact hc) with hmem | hmem
    · exact absurd (List.mem_takeWhile_imp hmem) (by simp [hcs])
    · exact hmem
  have h2 : pyStripRight (pyStripLeft l) ≠ [] := by
    intro hnil
    rw [pyStripRight, List.reverse_eq_nil_iff] at hnil
    have hall := List.dropWhile_eq_nil_iff.mp hnil
    exact absurd (hall c (List.mem_reverse.mpr h1)) (by simp [hcs])
  cases hres : pyStrip l with
  | nil => exact absurd hres h2
  | cons d rest => rfl

theorem lem_listCapture_exact (ws body post : PyStr)
    (hws : ∀ c ∈ ws, isSpaceChar c = true)
    (hbody_ne : body ≠ [])
    (hbody : ∀ c ∈ body, (c == ']') = false) :
    listCapture (ws ++ ('[' :: (body ++ (']' :: post)))) = some body := by
  have hw : ((ws ++ ('[' :: (body ++ (']' :: post)))).takeWhile isSpaceChar) = ws := by
    rw [lem_takeWhile_append_pos _ _ _ hws, lem_takeWhile_cons_neg _ _ _ (by decide),
      List.append_nil]
  have hdrop : (ws ++ ('[' :: (body ++ (']' :: post)))).drop ws.length =
      '[' :: (body ++ (']' :: post)) := List.drop_left _ _
  have hcap : (body ++ (']' :: post)).takeWhile (fun c => !(c == ']')) = body := by
    rw [lem_takeWhile_append_pos _ _ _ (fun c hc => by simp [hbody c hc]),
      lem_takeWhile_cons_neg _ _ _ (by decide), List.append_nil]
  have hne : body.isEmpty = false := by
    cases body with
    | nil => exact absurd rfl hbody_ne
    | cons a b => rfl
  have hdrop2 : (body ++ (']' :: post)).drop body.length = ']' :: post := List.drop_left _ _
  simp only [listCapture, hw, hdrop, hcap, hne, hdrop2]
  simp

theorem lem_C2_int (key pre ws post : PyStr) (d : Char) (ds : PyStr)
    (hpre : ∀ i < pre.length, (litPat key).isPrefixOf
        ((pre ++ (litPat key ++ (ws ++ ((d :: ds) ++ post)))).drop i) = false)
    (hws : ∀ c ∈ ws, isSpaceChar c = true)
    (hdig : (d :: ds).all Char.isDigit = true)
    (hpost : notExcl (post.headD '}') = false) :
    extract_value_int (pre ++ (litPat key ++ (ws ++ ((d :: ds) ++ post)))) key =
      ((digitsToNat (d :: ds) : Int)) := by
  have hall := List.all_eq_true.mp hdig
  have hcap : regexCapture (ws ++ ((d :: ds) ++ post)) = some (d :: ds) :=
    lem_regexCapture_val ws (d :: ds) post hws (by simp)
      (by simpa using lem_digit_not_space d (hall d (by simp)))
      (fun c hc => lem_digit_notExcl c (hall c hc)) hpost
  have hsearch : reSearchValue key (pre ++ (litPat key ++ (ws ++ ((d :: ds) ++ post)))) =
      some (d :: ds) := by
    rw [lem_reSearchValue_skip key pre _ hpre]
    exact lem_reSearchValue_hit key _ _ hcap
  have hstrip : stripQuoteSpace (d :: ds) = d :: ds :=
    lem_stripChars_of_all_not _ _ (fun c hc => lem_digit_not_quote c (hall c hc))
  simp only [extract_value_int, hsearch, hstrip, lem_pyIntOfStr_digits d ds hdig,
    Option.getD_some]

theorem lem_C2_str (key pre ws post : PyStr) (a : Char) (v' : PyStr)
    (hpre : ∀ i < pre.length, (litPat key).isPrefixOf
        ((pre ++ (litPat key ++ (ws ++ (quoteWrap (a :: v') ++ post)))).drop i) = false)
    (hws : ∀ c ∈ ws, isSpaceChar c = true)
    (hv : ∀ c ∈ (a :: v'), notExcl c = true)
    (hq1 : quoteSpace.contains a = false)
    (hq2 : quoteSpace.contains ((a :: v').getLastD ' ') = false)
    (hpost : notExcl (post.headD '}') = false) :
    extract_value_str (pre ++ (litPat key ++ (ws ++ (quoteWrap (a :: v') ++ post)))) key =
      a :: v' := by
  have hvalall : ∀ c ∈ quoteWrap (a :: v'), notExcl c = true := by
    intro c hc
    simp only [quoteWrap, List.mem_cons, List.mem_append] at hc
    rcases hc with rfl | (rfl | hc) | rfl | habs
    · decide
    · exact hv c (by simp)
    · exact hv c (by simp [hc])
    · decide
    · simp at habs
  have hcap : regexCapture (ws ++ (quoteWrap (a :: v') ++ post)) =
      some (quoteWrap (a :: v')) :=
    lem_regexCapture_val ws (quoteWrap (a :: v')) post hws (by simp [quoteWrap])
      (by rw [quoteWrap, List.headD_cons]; decide) hvalall hpost
  have hsearch : reSearchValue key
      (pre ++ (litPat key ++ (ws ++ (quoteWrap (a :: v') ++ post)))) =
      some (quoteWrap (a :: v')) := by
    rw [lem_reSearchValue_skip key pre _ hpre]
    exact lem_reSearchValue_hit key _ _ hcap
  simp only [extract_value_str, hsearch]
  exact lem_stripQuoteSpace_quoted a v' hq1 hq2

theorem lem_C2_list (key pre ws post : PyStr) (v : PyStr) (rest : List PyStr)
    (hpre : ∀ i < pre.length, (litPat key).isPrefixOf
        ((pre ++ (litPat key ++ (ws ++
          ('[' :: (renderItems (v :: rest) ++ (']' :: post)))))).drop i) = false)
    (hws : ∀ c ∈ ws, isSpaceChar c = true)
    (hitems : ∀ w ∈ v :: rest, plainItem w = true) :
    extract_list (pre ++ (litPat key ++ (ws ++
        ('[' :: (renderItems (v :: rest) ++ (']' :: post)))))) key = v :: rest := by
  have hbody_ne : renderItems (v :: rest) ≠ [] := by
    cases rest <;> simp [renderItems, quoteWrap]
  have hbody := lem_renderItems_no_bracket (v :: rest) hitems
  have hcap := lem_listCapture_exact ws (renderItems (v :: rest)) post hws hbody_ne hbody
  have hsearch : reSearchList key (pre ++ (litPat key ++ (ws ++
      ('[' :: (renderItems (v :: rest) ++ (']' :: post)))))) =
      some (renderItems (v :: rest)) := by
    rw [lem_reSearchList_skip key pre _ hpre]
    exact lem_reSearchList_hit key _ _ hcap
  simp only [extract_list, hsearch]
  rw [lem_splitComma_render v rest hitems]
  have hfil : ∀ chunk ∈ quoteWrap v :: rest.map (fun w => ' ' :: quoteWrap w),
      (!(pyStrip chunk).isEmpty) = true := by
    intro chunk hchunk
    rcases List.mem_cons.mp hchunk with rfl | hchunk
    · have h1 := lem_pyStrip_ne_nil (quoteWrap v) '"' (by simp [quoteWrap]) (by decide)
      simp [h1]
    · obtain ⟨w, hw, rfl⟩ := List.mem_map.mp hchunk
      have h1 := lem_pyStrip_ne_nil (' ' :: quoteWrap w) '"' (by simp [quoteWrap]) (by decide)
      simp [h1]
  rw [List.filter_eq_self.mpr hfil]
  rw [List.map_cons, lem_stripQuoteSpace_item v (hitems v (by simp)), List.map_map]
  congr 1
  have hcongr : ∀ w ∈ rest, (stripQuoteSpace ∘ fun w => ' ' :: quoteWrap w) w = id w := by
    intro w hw
    simp only [Function.comp, id]
    exact lem_stripQuoteSpace_space_item w (hitems w (by simp [hw]))
  rw [List.map_congr_left hcongr, List.map_id]

/-- C2: when a key is present in near-JSON text followed by a simple
literal, the extractors recover it: an integer literal is returned as its
decimal value by extract_value with int, a quoted string literal is
returned unquoted by extract_value with str, and a bracketed list of
quoted plain items is returned as the list of the item strings by
extract_list. -/
theorem claim_C2_present_extraction :
    (∀ key pre ws post : PyStr, ∀ d : Char, ∀ ds : PyStr,
      (∀ i < pre.length, (litPat key).isPrefixOf
          ((pre ++ (litPat key ++ (ws ++ ((d :: ds) ++ post)))).drop i) = false) →
      (∀ c ∈ ws, isSpaceChar c = true) →
      (d :: ds).all Char.isDigit = true →
      notExcl (post.headD '}') = false →
      extract_value_int (pre ++ (litPat key ++ (ws ++ ((d :: ds) ++ post)))) key =
        ((digitsToNat (d :: ds) : Int))) ∧
    (∀ key pre ws post : PyStr, ∀ a : Char, ∀ v' : PyStr,
      (∀ i < pre.length, (litPat key).isPrefixOf
          ((pre ++ (litPat key ++ (ws ++ (quoteWrap (a :: v') ++ post)))).drop i) = false) →
      (∀ c ∈ ws, isSpaceChar c = true) →
      (∀ c ∈ (a :: v'), notExcl c = true) →
      quoteSpace.contains a = false →
      quoteSpace.contains ((a :: v').getLastD ' ') = false →
      notExcl (post.headD '}') = false →
      extract_value_str (pre ++ (litPat key ++ (ws ++ (quoteWrap (a :: v') ++ post)))) key =
        a :: v') ∧
    (∀ key pre ws post : PyStr, ∀ v : PyStr, ∀ rest : List PyStr,
      (∀ i < pre.length, (litPat key).isPrefixOf
          ((pre ++ (litPat key ++ (ws ++
            ('[' :: (renderItems (v :: rest) ++ (']' :: post)))))).drop i) = false) →
      (∀ c ∈ ws, isSpaceChar c = true) →
      (∀ w ∈ v :: rest, plainItem w = true) →
      extract_list (pre ++ (litPat key ++ (ws ++
          ('[' :: (renderItems (v :: rest) ++ (']' :: post)))))) key = v :: rest) :=
  ⟨fun key pre ws post d ds h1 h2 h3 h4 => lem_C2_int key pre ws post d ds h1 h2 h3 h4,
    fun key pre ws post a v' h1 h2 h3 h4 h5 h6 =>
      lem_C2_str key pre ws post a v' h1 h2 h3 h4 h5 h6,
    fun key pre ws post v rest h1 h2 h3 => lem_C2_list key pre ws post v rest h1 h2 h3⟩

/-- Witness for C2 on three concrete near-JSON texts. -/
theorem claim_C2_present_extraction_witness :
    extract_value_int (toL "x\"match_score\": 75,") (toL "match_score") = 75 ∧
      extract_value_str (toL "x\"summary\": \"good\",") (toL "summary") = toL "good" ∧
      extract_list (toL "x\"skills\": [\"a\", \"b\"]") (toL "skills") =
        [toL "a", toL "b"] :=
  ⟨claim_C2_present_extraction.1 (toL "match_score") (toL "x") [' '] (toL ",") '7' (toL "5")
      (by decide) (by decide) (by decide) (by decide),
    claim_C2_present_extraction.2.1 (toL "summary") (toL "x") [' '] (toL ",") 'g' (toL "ood")
      (by decide) (by decide) (by decide) (by decide) (by decide) (by decide),
    claim_C2_present_extraction.2.2 (toL "skills") (toL "x") [' '] [] (toL "a") [toL "b"]
      (by decide) (by decide) (by decide)⟩

end ResumeParser
